import Mathlib

/-!
Verification of the MCP basics repository: a shallow embedding of the
calculator tool server (src/3-simple-server-setup/server.py) and of the
Azure OpenAI chat client's tool-calling bridge loop
(src/5-azure-openai-integration/client-simple.py), together with proofs
of the specification's claims about them.
-/

namespace MCPBasics

/-! ## Calculator tool server (src/3-simple-server-setup/server.py)

The four tools are pure functions over machine integers; Python integers
are unbounded, so `Int` models them exactly.  `divide` returns a Python
float; for integer inputs the mathematical quotient is modelled as a
rational number, and the `raise ValueError` branch as `Except.error`. -/

def add (a b : Int) : Int := a + b

def subtract (a b : Int) : Int := a - b

def multiply (a b : Int) : Int := a * b

def divide (a b : Int) : Except String Rat :=
  if b = 0 then Except.error "Division by zero is not allowed."
  else Except.ok ((a : Rat) / (b : Rat))

/-! ## Data model of the chat client (src/5-azure-openai-integration/client-simple.py) -/

/-- Message roles used by the client. -/
inductive Role where
  | system
  | user
  | assistant
  | tool
  deriving DecidableEq, Repr

/-- A tool-invocation request carried by an assistant message:
`tool_call.id`, `tool_call.function.name`, `tool_call.function.arguments`
(the raw JSON argument string, parsed with `json.loads` before use). -/
structure ToolCall where
  id : String
  name : String
  arguments : String
  deriving DecidableEq, Repr

/-- A chat message as the client builds them.  Stored transcript entries
are plain role/content dicts (`tool_call_id` and `tool_calls` absent,
modelled as `none` / `[]`); the raw assistant message object and the
tool-result dicts that appear only in the temporary follow-up list carry
the extra fields. -/
structure Msg where
  role : Role
  content : Option String := none
  tool_call_id : Option String := none
  tool_calls : List ToolCall := []
  deriving DecidableEq, Repr

/-- The assistant message returned by a chat completion:
`response.choices[0].message`, with optional text content and a possibly
empty list of tool calls (`None` and `[]` are both falsy in the source's
`if assistant_message.tool_calls:` test, so both are modelled as `[]`). -/
structure AssistantMessage where
  content : Option String := none
  tool_calls : List ToolCall := []
  deriving DecidableEq, Repr

/-- A tool as advertised by the MCP session (`session.list_tools()`);
the input schema is an opaque payload. -/
structure MCPTool where
  name : String
  description : String
  inputSchema : String
  deriving DecidableEq, Repr

/-- A tool descriptor in the OpenAI function-calling format, as built by
`get_mcp_tools`. -/
structure ToolDescriptor where
  name : String
  description : String
  parameters : String
  deriving DecidableEq, Repr

/-- The result object of `session.call_tool`; the client only reads its
`content` field. -/
structure CallToolResult where
  content : String
  deriving DecidableEq, Repr

/-- `get_mcp_tools`: reshape the session's tool catalog into the OpenAI
function-calling format, preserving name, description and schema. -/
def mcpTools (ts : List MCPTool) : List ToolDescriptor :=
  ts.map fun t => { name := t.name, description := t.description, parameters := t.inputSchema }

/-- The external collaborators of one client run, over an opaque type `α`
of parsed JSON argument payloads: the MCP session (`list_tools`,
`call_tool`), the completion collaborator (first call with tool use
"auto", second with "none"), and the JSON parser.  Fallible external
calls return `Except`. -/
structure Env (α : Type) where
  list_tools : List MCPTool
  complete1 : List Msg → List ToolDescriptor → AssistantMessage
  complete2 : List Msg → List ToolDescriptor → Option String
  parseJson : String → Except String α
  call_tool : String → α → Except String CallToolResult

/-- Observable events of one query cycle: the tool-catalog query, each
completion request (with the exact message window and tool-choice mode
sent), and each tool invocation actually issued to the session. -/
inductive Event (α : Type) where
  | listTools
  | completion (msgs : List Msg) (toolChoice : String)
  | invoke (name : String) (args : α)
  deriving DecidableEq, Repr

/-- Python's `l[-n:]` slice: the last `n` elements (the whole list when
it is shorter than `n`). -/
def lastN {β : Type} (n : Nat) (l : List β) : List β :=
  l.drop (l.length - n)

/-- The user message appended to the transcript:
`{"role": "user", "content": query}`. -/
def userMsg (q : String) : Msg :=
  { role := Role.user, content := some q }

/-- The stored copy of an assistant message:
`{"role": "assistant", "content": content or ""}` — tool metadata is
dropped and absent content is coerced to the empty string.  (Python's
`x or ""` and `Option.getD ""` agree: both send `None`/`none` and the
empty string to `""` and keep any other string.) -/
def storedAssistantMsg (c : Option String) : Msg :=
  { role := Role.assistant, content := some (c.getD "") }

/-- The raw assistant message object as it is spliced into the follow-up
message list (`messages + [assistant_message] + tool_messages`). -/
def rawAssistantMsg (am : AssistantMessage) : Msg :=
  { role := Role.assistant, content := am.content, tool_calls := am.tool_calls }

/-- A tool-result message:
`{"role": "tool", "tool_call_id": tool_call.id, "content": result.content}`. -/
def toolMsg (id content : String) : Msg :=
  { role := Role.tool, content := some content, tool_call_id := some id }

/-- The message window sent to the first completion request:
`chat_history[-20:]` taken after the user message has been appended. -/
def firstWindow (history : List Msg) (query : String) : List Msg :=
  lastN 20 (history ++ [userMsg query])

/-- The tool-call loop of `process_query`: for each request in order,
parse its arguments (`json.loads`), invoke the named tool on the session,
and build one tool-result message.  An error of either step aborts the
loop and propagates; the second component is the trace of invocations
actually issued. -/
def runToolCalls {α : Type} (env : Env α) : List ToolCall → Except String (List Msg) × List (Event α)
  | [] => (Except.ok [], [])
  | tc :: rest =>
    match env.parseJson tc.arguments with
    | Except.error e => (Except.error e, [])
    | Except.ok args =>
      match env.call_tool tc.name args with
      | Except.error e => (Except.error e, [Event.invoke tc.name args])
      | Except.ok r =>
        let k := runToolCalls env rest
        (k.1.map (fun ms => toolMsg tc.id r.content :: ms),
         Event.invoke tc.name args :: k.2)

/-- `process_query`: append the user message, fetch the tool catalog,
slice the last-20 window, issue the first completion ("auto"), append the
stored assistant copy, then — if tool calls are present — run them all
and issue the second completion ("none") on the truncated follow-up list.
Returns the new stored transcript, the result (the answer, or the
propagated error), and the event trace. -/
def processQuery {α : Type} (env : Env α) (history : List Msg) (query : String) :
    List Msg × Except String (Option String) × List (Event α) :=
  let tools := mcpTools env.list_tools
  let messages := firstWindow history query
  let am := env.complete1 messages tools
  let history2 := (history ++ [userMsg query]) ++ [storedAssistantMsg am.content]
  if am.tool_calls = [] then
    (history2, Except.ok am.content, [Event.listTools, Event.completion messages "auto"])
  else
    match runToolCalls env am.tool_calls with
    | (Except.error e, evs) =>
      (history2, Except.error e,
        Event.listTools :: Event.completion messages "auto" :: evs)
    | (Except.ok toolMsgs, evs) =>
      let followup := messages ++ [rawAssistantMsg am] ++ toolMsgs
      let window2 := lastN 20 followup
      let c := env.complete2 window2 tools
      (history2 ++ [storedAssistantMsg c], Except.ok c,
        Event.listTools :: Event.completion messages "auto" ::
          (evs ++ [Event.completion window2 "none"]))

/-- The message windows actually sent to the completion collaborator, in
order, read off a trace. -/
def sentWindows {α : Type} : List (Event α) → List (List Msg)
  | [] => []
  | Event.completion msgs _ :: rest => msgs :: sentWindows rest
  | Event.listTools :: rest => sentWindows rest
  | Event.invoke _ _ :: rest => sentWindows rest

/-! ## Interactive loop (`main` in client-simple.py) -/

/-- Python's whitespace test for `str.strip()` (the ASCII whitespace
characters; the loop's inputs are ASCII command lines). -/
def isSpaceChar (c : Char) : Bool :=
  c = ' ' ∨ c = '\t' ∨ c = '\n' ∨ c = '\x0d' ∨ c = '\x0b' ∨ c = '\x0c'

/-- Python's `str.strip()`: drop whitespace from both ends. -/
def pyStrip (s : String) : String :=
  ⟨((s.data.dropWhile isSpaceChar).reverse.dropWhile isSpaceChar).reverse⟩

/-- Python's `str.lower()` (on the ASCII letters the sentinels use). -/
def pyLower (s : String) : String :=
  ⟨s.data.map Char.toLower⟩

/-- What one read line makes the loop do: `query = input(...).strip()`;
`exit`/`quit` (case-insensitive) breaks, empty input continues, anything
else runs one query cycle. -/
inductive StepAction where
  | exit
  | skip
  | run (q : String)
  deriving DecidableEq, Repr

def loopStep (line : String) : StepAction :=
  let query := pyStrip line
  if pyLower query = "exit" ∨ pyLower query = "quit" then StepAction.exit
  else if query = "" then StepAction.skip
  else StepAction.run query

/-- How the interactive loop ended: the exit sentinel, exhaustion of
input, or an error propagating out of a cycle. -/
inductive Outcome where
  | exited
  | endOfInput
  | errored (e : String)
  deriving DecidableEq, Repr

/-- The `while True` loop of `main` over a list of input lines, threading
the stored transcript and accumulating the event trace; an error raised
by a cycle terminates the loop (nothing in the loop catches it). -/
def runLoop {α : Type} (env : Env α) (history : List Msg) :
    List String → Outcome × List Msg × List (Event α)
  | [] => (Outcome.endOfInput, history, [])
  | line :: rest =>
    match loopStep line with
    | StepAction.exit => (Outcome.exited, history, [])
    | StepAction.skip => runLoop env history rest
    | StepAction.run q =>
      match processQuery env history q with
      | (h1, Except.error e, evs) => (Outcome.errored e, h1, evs)
      | (h1, Except.ok _, evs) =>
        let r := runLoop env h1 rest
        (r.1, r.2.1, evs ++ r.2.2)

/-- Resource actions on the session/transport: acquisition at startup
(`connect_to_server`) and release (`cleanup`, i.e. `exit_stack.aclose()`). -/
inductive ResAction where
  | acquire
  | release
  deriving DecidableEq, Repr

/-- The system message `main` seeds the transcript with. -/
def systemMessage : Msg :=
  { role := Role.system,
    content := some ("You are an AI assistant that uses the ReAct (Reason + Act) pattern. " ++
      "For every user query, first reason step-by-step about how to solve the problem, " ++
      "then act by calling the appropriate tool or providing an answer. " ++
      "When calling tools, always use lower case for all attribute names in tool_calls arguments. " ++
      "Format your response as:\nReason: <your reasoning>\nAct: <your action or tool call>") }

/-- The result of one whole run of `main`. -/
structure MainRun (α : Type) where
  outcome : Outcome
  history : List Msg
  events : List (Event α)
  resources : List ResAction
  deriving Repr

/-- `main`: acquire the session, seed the transcript with the system
message, run the loop inside `try`, and release in `finally` — the
release action is recorded after the loop whatever its outcome. -/
def mainRun {α : Type} (env : Env α) (lines : List String) : MainRun α :=
  let r := runLoop env [systemMessage] lines
  { outcome := r.1, history := r.2.1, events := r.2.2,
    resources := [ResAction.acquire, ResAction.release] }

/-! ## Helper lemmas -/

theorem lastN_length_le {β : Type} (n : Nat) (l : List β) : (lastN n l).length ≤ n := by
  simp only [lastN, List.length_drop]
  omega

theorem lastN_of_length_le {β : Type} (n : Nat) (l : List β) (h : l.length ≤ n) :
    lastN n l = l := by
  simp only [lastN]
  have : l.length - n = 0 := by omega
  simp [this]

/-- Branch characterization: no tool calls in the first assistant message. -/
theorem processQuery_noTools {α : Type} (env : Env α) (history : List Msg) (query : String)
    (am : AssistantMessage)
    (ham : env.complete1 (firstWindow history query) (mcpTools env.list_tools) = am)
    (h : am.tool_calls = []) :
    processQuery env history query =
      ((history ++ [userMsg query]) ++ [storedAssistantMsg am.content], Except.ok am.content,
        [Event.listTools, Event.completion (firstWindow history query) "auto"]) := by
  simp [processQuery, ham, h]

/-- Branch characterization: tool calls present and the tool loop fails. -/
theorem processQuery_toolsErr {α : Type} (env : Env α) (history : List Msg) (query : String)
    (am : AssistantMessage)
    (ham : env.complete1 (firstWindow history query) (mcpTools env.list_tools) = am)
    (hne : am.tool_calls ≠ []) (e : String) (evs : List (Event α))
    (hrun : runToolCalls env am.tool_calls = (Except.error e, evs)) :
    processQuery env history query =
      ((history ++ [userMsg query]) ++ [storedAssistantMsg am.content], Except.error e,
        Event.listTools :: Event.completion (firstWindow history query) "auto" :: evs) := by
  simp [processQuery, ham, hne, hrun]

/-- Branch characterization: tool calls present and the tool loop succeeds. -/
theorem processQuery_toolsOk {α : Type} (env : Env α) (history : List Msg) (query : String)
    (am : AssistantMessage)
    (ham : env.complete1 (firstWindow history query) (mcpTools env.list_tools) = am)
    (hne : am.tool_calls ≠ []) (toolMsgs : List Msg) (evs : List (Event α))
    (hrun : runToolCalls env am.tool_calls = (Except.ok toolMsgs, evs)) :
    processQuery env history query =
      ((history ++ [userMsg query]) ++ [storedAssistantMsg am.content] ++
          [storedAssistantMsg (env.complete2
            (lastN 20 (firstWindow history query ++ [rawAssistantMsg am] ++ toolMsgs))
            (mcpTools env.list_tools))],
        Except.ok (env.complete2
          (lastN 20 (firstWindow history query ++ [rawAssistantMsg am] ++ toolMsgs))
          (mcpTools env.list_tools)),
        Event.listTools :: Event.completion (firstWindow history query) "auto" ::
          (evs ++ [Event.completion
            (lastN 20 (firstWindow history query ++ [rawAssistantMsg am] ++ toolMsgs)) "none"])) := by
  simp [processQuery, ham, hne, hrun]

/-- The tool loop never issues a completion request. -/
theorem runToolCalls_no_completion {α : Type} (env : Env α) (tcs : List ToolCall) :
    ∀ msgs tc, Event.completion msgs tc ∉ (runToolCalls env tcs).2 := by
  induction tcs with
  | nil => simp [runToolCalls]
  | cons tc rest ih =>
    intro msgs t
    simp only [runToolCalls]
    cases hp : env.parseJson tc.arguments with
    | error e => simp
    | ok args =>
      cases hc : env.call_tool tc.name args with
      | error e => simp [hc]
      | ok r =>
        simp only [hc, List.mem_cons]
        rintro (h | h)
        · exact Event.noConfusion h
        · exact ih msgs t h

theorem firstWindow_length_le (history : List Msg) (query : String) :
    (firstWindow history query).length ≤ 20 :=
  lastN_length_le 20 _

/-- A concrete environment for witnesses: the completion collaborator
answers directly without requesting tools. -/
def echoEnv : Env String :=
  { list_tools := [{ name := "add", description := "Add two numbers together", inputSchema := "obj" }],
    complete1 := fun _ _ => { content := some "hello" },
    complete2 := fun _ _ => some "done",
    parseJson := fun s => Except.ok s,
    call_tool := fun _ _ => Except.ok { content := "4" } }

/-- A first assistant message carrying two tool-invocation requests. -/
def twoCallAM : AssistantMessage :=
  { content := none,
    tool_calls := [{ id := "call_1", name := "add", arguments := "argsA" },
                   { id := "call_2", name := "multiply", arguments := "argsB" }] }

/-- A concrete environment whose completion collaborator requests the
two tool calls of `twoCallAM`; invocations fail exactly on the argument
payload "boom". -/
def toolEnv : Env String :=
  { list_tools := [{ name := "add", description := "Add two numbers together", inputSchema := "obj" }],
    complete1 := fun _ _ => twoCallAM,
    complete2 := fun _ _ => some "The result is 4",
    parseJson := fun s => Except.ok s,
    call_tool := fun _ a =>
      if a = "boom" then Except.error "tool failed" else Except.ok { content := "4" } }

/-! ## Claims -/

/-- C1: every message sequence sent to the completion collaborator — in
the first (tool-enabled, "auto") request and in the second
(tool-disabled, "none") request alike — has length at most 20, however
long the stored transcript has grown. -/
theorem window_bound {α : Type} (env : Env α) (history : List Msg) (query : String) :
    ∀ msgs tc, Event.completion msgs tc ∈ (processQuery env history query).2.2 →
      msgs.length ≤ 20 := by
  intro msgs tc hmem
  set am := env.complete1 (firstWindow history query) (mcpTools env.list_tools) with ham
  by_cases h : am.tool_calls = []
  · rw [processQuery_noTools env history query am ham.symm h] at hmem
    simp only [List.mem_cons, List.not_mem_nil, or_false] at hmem
    rcases hmem with hmem | hmem
    · exact absurd hmem (fun hc => Event.noConfusion hc)
    · obtain ⟨hm, -⟩ := Event.completion.inj hmem
      rw [hm]; exact firstWindow_length_le history query
  · have hnc := runToolCalls_no_completion env am.tool_calls msgs tc
    rcases hrun : runToolCalls env am.tool_calls with ⟨res, evs⟩
    rw [hrun] at hnc
    cases res with
    | error e =>
      rw [processQuery_toolsErr env history query am ham.symm h e evs hrun] at hmem
      simp only [List.mem_cons] at hmem
      rcases hmem with hmem | hmem | hmem
      · exact absurd hmem (fun hc => Event.noConfusion hc)
      · obtain ⟨hm, -⟩ := Event.completion.inj hmem
        rw [hm]; exact firstWindow_length_le history query
      · exact absurd hmem hnc
    | ok tms =>
      rw [processQuery_toolsOk env history query am ham.symm h tms evs hrun] at hmem
      simp only [List.mem_cons, List.mem_append, List.not_mem_nil, or_false] at hmem
      rcases hmem with hmem | hmem | hmem | hmem
      · exact absurd hmem (fun hc => Event.noConfusion hc)
      · obtain ⟨hm, -⟩ := Event.completion.inj hmem
        rw [hm]; exact firstWindow_length_le history query
      · exact absurd hmem hnc
      · obtain ⟨hm, -⟩ := Event.completion.inj hmem
        rw [hm]; exact lastN_length_le 20 _

/-- C1 witness: a concrete cycle in which the first window is actually
sent, with its length within the bound. -/
theorem window_bound_witness :
    Event.completion (firstWindow [] "2 + 2") "auto" ∈ (processQuery toolEnv [] "2 + 2").2.2 ∧
    (firstWindow [] "2 + 2").length ≤ 20 :=
  ⟨by decide, window_bound toolEnv [] "2 + 2" (firstWindow [] "2 + 2") "auto" (by decide)⟩

/-- A 20-entry transcript whose head is the system message, as `main`
builds it after nineteen further messages have accumulated. -/
def longHistory : List Msg :=
  systemMessage :: List.replicate 19 (userMsg "hi")

/-- C2 counterexample: with a 20-entry stored transcript headed by the
system message, the window sent to the completion collaborator no longer
contains the system message — the `[-20:]` slice grants it no exemption. -/
theorem system_message_dropped :
    longHistory.head? = some systemMessage ∧
    systemMessage.role = Role.system ∧
    sentWindows (processQuery echoEnv longHistory "next").2.2 ≠ [] ∧
    ∀ w ∈ sentWindows (processQuery echoEnv longHistory "next").2.2,
      systemMessage ∉ w := by
  refine ⟨rfl, rfl, ?_, ?_⟩ <;> decide

/-- C2 amended: the window sent to the first completion request is the
plain last-20 slice of the stored transcript plus the new user message,
with no exemption for a leading system message; a leading message (the
system message included) is still in the window only while the stored
transcript holds at most 19 entries. -/
theorem first_window_plain_slice {α : Type} (env : Env α) (history : List Msg) (query : String) :
    (sentWindows (processQuery env history query).2.2).head? =
      some (firstWindow history query) ∧
    (∀ m, history.head? = some m → history.length ≤ 19 →
      m ∈ firstWindow history query) := by
  constructor
  · set am := env.complete1 (firstWindow history query) (mcpTools env.list_tools) with ham
    by_cases h : am.tool_calls = []
    · rw [processQuery_noTools env history query am ham.symm h]
      simp [sentWindows]
    · rcases hrun : runToolCalls env am.tool_calls with ⟨res, evs⟩
      cases res with
      | error e =>
        rw [processQuery_toolsErr env history query am ham.symm h e evs hrun]
        simp [sentWindows]
      | ok tms =>
        rw [processQuery_toolsOk env history query am ham.symm h tms evs hrun]
        simp [sentWindows]
  · intro m hm hlen
    cases history with
    | nil => simp at hm
    | cons a t =>
      simp only [List.head?_cons, Option.some.injEq] at hm
      subst hm
      have hfw : firstWindow (a :: t) query = (a :: t) ++ [userMsg query] := by
        apply lastN_of_length_le
        simp only [List.length_append, List.length_cons, List.length_nil] at hlen ⊢
        omega
      rw [hfw]
      exact List.mem_append_left _ (List.mem_cons_self a t)

/-- C2 amended witness: with a single-entry transcript the leading
system message is still inside the window. -/
theorem first_window_plain_slice_witness :
    [systemMessage].head? = some systemMessage ∧
    ([systemMessage] : List Msg).length ≤ 19 ∧
    systemMessage ∈ firstWindow [systemMessage] "hi" :=
  ⟨rfl, by decide,
   (first_window_plain_slice echoEnv [systemMessage] "hi").2 systemMessage rfl (by decide)⟩

/-- The tool loop, when every parse and invocation succeeds, issues
exactly one invocation per request in the order received and builds
exactly one result message per request, the i-th result from the i-th
request. -/
theorem runToolCalls_all_ok {α : Type} (env : Env α) (tcs : List ToolCall)
    (h : ∀ tc ∈ tcs, ∃ a r, env.parseJson tc.arguments = Except.ok a ∧
      env.call_tool tc.name a = Except.ok r) :
    ∃ msgs evs, runToolCalls env tcs = (Except.ok msgs, evs) ∧
      msgs.length = tcs.length ∧ evs.length = tcs.length ∧
      ∀ i, i < tcs.length → ∃ tc a r,
        tcs[i]? = some tc ∧
        env.parseJson tc.arguments = Except.ok a ∧
        env.call_tool tc.name a = Except.ok r ∧
        evs[i]? = some (Event.invoke tc.name a) ∧
        msgs[i]? = some (toolMsg tc.id r.content) := by
  induction tcs with
  | nil =>
    exact ⟨[], [], rfl, rfl, rfl, fun i hi => absurd hi (by simp)⟩
  | cons tc rest ih =>
    obtain ⟨a, r, hp, hc⟩ := h tc (List.mem_cons_self tc rest)
    obtain ⟨msgs, evs, hrun, hlm, hle, hidx⟩ :=
      ih (fun t ht => h t (List.mem_cons_of_mem tc ht))
    refine ⟨toolMsg tc.id r.content :: msgs, Event.invoke tc.name a :: evs, ?_,
      by simp [hlm], by simp [hle], ?_⟩
    · simp [runToolCalls, hp, hc, hrun, Except.map]
    · intro i hi
      cases i with
      | zero => exact ⟨tc, a, r, by simp, hp, hc, by simp, by simp⟩
      | succ j =>
        obtain ⟨tcj, aj, rj, h1, h2, h3, h4, h5⟩ := hidx j (by simpa using hi)
        exact ⟨tcj, aj, rj, by simpa using h1, h2, h3, by simpa using h4, by simpa using h5⟩

/-- C3: when the first assistant message carries tool calls and every
invocation succeeds, each named tool is invoked exactly once, in the
order the requests were received, each request yields exactly one
result, and the second (tool-disabled) completion request comes after
every invocation in the trace. -/
theorem tool_calls_sequential {α : Type} (env : Env α) (history : List Msg) (query : String)
    (am : AssistantMessage)
    (ham : env.complete1 (firstWindow history query) (mcpTools env.list_tools) = am)
    (hne : am.tool_calls ≠ [])
    (hok : ∀ tc ∈ am.tool_calls, ∃ a r, env.parseJson tc.arguments = Except.ok a ∧
      env.call_tool tc.name a = Except.ok r) :
    ∃ msgs evs, runToolCalls env am.tool_calls = (Except.ok msgs, evs) ∧
      msgs.length = am.tool_calls.length ∧ evs.length = am.tool_calls.length ∧
      (∀ i, i < am.tool_calls.length → ∃ tc a r,
        am.tool_calls[i]? = some tc ∧
        env.parseJson tc.arguments = Except.ok a ∧
        env.call_tool tc.name a = Except.ok r ∧
        evs[i]? = some (Event.invoke tc.name a) ∧
        msgs[i]? = some (toolMsg tc.id r.content)) ∧
      (processQuery env history query).2.2 =
        Event.listTools :: Event.completion (firstWindow history query) "auto" ::
          (evs ++ [Event.completion
            (lastN 20 (firstWindow history query ++ [rawAssistantMsg am] ++ msgs)) "none"]) := by
  obtain ⟨msgs, evs, hrun, hlm, hle, hidx⟩ := runToolCalls_all_ok env am.tool_calls hok
  refine ⟨msgs, evs, hrun, hlm, hle, hidx, ?_⟩
  rw [processQuery_toolsOk env history query am ham hne msgs evs hrun]

/-- C3 witness: both requested invocations run, in order, one result
each, with the "none" completion after both invocations. -/
theorem tool_calls_sequential_witness :
    twoCallAM.tool_calls ≠ [] ∧
    ∃ msgs evs, runToolCalls toolEnv twoCallAM.tool_calls = (Except.ok msgs, evs) ∧
      msgs.length = twoCallAM.tool_calls.length ∧
      evs.length = twoCallAM.tool_calls.length ∧
      (processQuery toolEnv [] "2 + 2").2.2 =
        Event.listTools :: Event.completion (firstWindow [] "2 + 2") "auto" ::
          (evs ++ [Event.completion
            (lastN 20 (firstWindow [] "2 + 2" ++ [rawAssistantMsg twoCallAM] ++ msgs)) "none"]) := by
  have h := tool_calls_sequential toolEnv [] "2 + 2" twoCallAM rfl (by decide)
    (by intro tc htc
        fin_cases htc
        · exact ⟨"argsA", { content := "4" }, rfl, rfl⟩
        · exact ⟨"argsB", { content := "4" }, rfl, rfl⟩)
  obtain ⟨msgs, evs, h1, h2, h3, -, h5⟩ := h
  exact ⟨by decide, msgs, evs, h1, h2, h3, h5⟩

/-- The tool loop, when the invocation of the i-th request fails (all
earlier ones succeeding), propagates that error, issues no invocation
beyond the i-th, and the trace holds exactly the first i+1 invocations. -/
theorem runToolCalls_error_at {α : Type} (env : Env α) (tcs : List ToolCall)
    (i : Nat) (tc : ToolCall) (a : α) (e : String)
    (htc : tcs[i]? = some tc)
    (hpre : ∀ j, j < i → ∃ tcj aj rj, tcs[j]? = some tcj ∧
      env.parseJson tcj.arguments = Except.ok aj ∧
      env.call_tool tcj.name aj = Except.ok rj)
    (hp : env.parseJson tc.arguments = Except.ok a)
    (hf : env.call_tool tc.name a = Except.error e) :
    (runToolCalls env tcs).1 = Except.error e ∧
    (runToolCalls env tcs).2.length = i + 1 ∧
    ∀ j ev, (runToolCalls env tcs).2[j]? = some ev →
      j ≤ i ∧ ∃ tcj aj, tcs[j]? = some tcj ∧ ev = Event.invoke tcj.name aj := by
  induction tcs generalizing i with
  | nil => simp at htc
  | cons t0 rest ih =>
    cases i with
    | zero =>
      simp only [List.getElem?_cons_zero, Option.some.injEq] at htc
      subst htc
      have heq : runToolCalls env (t0 :: rest) =
          (Except.error e, [Event.invoke t0.name a]) := by
        simp [runToolCalls, hp, hf]
      rw [heq]
      refine ⟨rfl, rfl, ?_⟩
      intro j ev hj
      cases j with
      | zero =>
        simp only [List.getElem?_cons_zero, Option.some.injEq] at hj
        exact ⟨Nat.le_refl 0, t0, a, by simp, hj.symm⟩
      | succ k => simp at hj
    | succ n =>
      obtain ⟨tc0, a0, r0, ht0, hp0, hc0⟩ := hpre 0 (Nat.succ_pos n)
      simp only [List.getElem?_cons_zero, Option.some.injEq] at ht0
      subst ht0
      have htc2 : rest[n]? = some tc := by simpa using htc
      have hpre2 : ∀ j, j < n → ∃ tcj aj rj, rest[j]? = some tcj ∧
          env.parseJson tcj.arguments = Except.ok aj ∧
          env.call_tool tcj.name aj = Except.ok rj := by
        intro j hj
        obtain ⟨tcj, aj, rj, h1, h2, h3⟩ := hpre (j + 1) (Nat.succ_lt_succ hj)
        exact ⟨tcj, aj, rj, by simpa using h1, h2, h3⟩
      obtain ⟨ih1, ih2, ih3⟩ := ih n htc2 hpre2
      have heq : runToolCalls env (t0 :: rest) =
          (Except.map (fun ms => toolMsg t0.id r0.content :: ms) (runToolCalls env rest).1,
            Event.invoke t0.name a0 :: (runToolCalls env rest).2) := by
        simp [runToolCalls, hp0, hc0]
      rw [heq]
      refine ⟨?_, ?_, ?_⟩
      · rw [ih1]; rfl
      · simp only [List.length_cons, ih2]
      · intro j ev hj
        cases j with
        | zero =>
          simp only [List.getElem?_cons_zero, Option.some.injEq] at hj
          exact ⟨Nat.zero_le _, t0, a0, by simp, hj.symm⟩
        | succ k =>
          simp only [List.getElem?_cons_succ] at hj
          obtain ⟨hk, tcj, aj, h1, h2⟩ := ih3 k ev hj
          exact ⟨Nat.succ_le_succ hk, tcj, aj, by simpa using h1, h2⟩

/-- C4: when the invocation of the i-th requested tool raises an error
(all earlier ones succeeding), the whole cycle aborts: the error is the
cycle's result, no later invocation runs, and no second completion
request is issued. -/
theorem tool_error_aborts_cycle {α : Type} (env : Env α) (history : List Msg) (query : String)
    (am : AssistantMessage)
    (ham : env.complete1 (firstWindow history query) (mcpTools env.list_tools) = am)
    (i : Nat) (tc : ToolCall) (a : α) (e : String)
    (htc : am.tool_calls[i]? = some tc)
    (hpre : ∀ j, j < i → ∃ tcj aj rj, am.tool_calls[j]? = some tcj ∧
      env.parseJson tcj.arguments = Except.ok aj ∧
      env.call_tool tcj.name aj = Except.ok rj)
    (hp : env.parseJson tc.arguments = Except.ok a)
    (hf : env.call_tool tc.name a = Except.error e) :
    (processQuery env history query).2.1 = Except.error e ∧
    ∃ evs, (processQuery env history query).2.2 =
        Event.listTools :: Event.completion (firstWindow history query) "auto" :: evs ∧
      evs.length = i + 1 ∧
      (∀ j ev, evs[j]? = some ev → j ≤ i ∧ ∃ tcj aj,
        am.tool_calls[j]? = some tcj ∧ ev = Event.invoke tcj.name aj) ∧
      ∀ msgs tcc, Event.completion msgs tcc ∉ evs := by
  have hne : am.tool_calls ≠ [] := by
    intro hnil
    rw [hnil] at htc
    simp at htc
  obtain ⟨h1, h2, h3⟩ := runToolCalls_error_at env am.tool_calls i tc a e htc hpre hp hf
  rcases hrun : runToolCalls env am.tool_calls with ⟨res, evs⟩
  rw [hrun] at h1 h2 h3
  simp only at h1 h2 h3
  subst h1
  have hnc : ∀ msgs tcc, Event.completion msgs tcc ∉ evs := by
    intro msgs tcc
    have hn := runToolCalls_no_completion env am.tool_calls msgs tcc
    rw [hrun] at hn
    exact hn
  rw [processQuery_toolsErr env history query am ham hne e evs hrun]
  exact ⟨rfl, evs, rfl, h2, h3, hnc⟩

/-- A first assistant message whose second tool call fails. -/
def failAM : AssistantMessage :=
  { content := none,
    tool_calls := [{ id := "call_1", name := "add", arguments := "argsA" },
                   { id := "call_2", name := "divide", arguments := "boom" },
                   { id := "call_3", name := "add", arguments := "argsC" }] }

/-- `toolEnv` with a completion collaborator requesting `failAM`'s calls. -/
def failEnv : Env String :=
  { toolEnv with complete1 := fun _ _ => failAM }

/-- C4 witness: the second of three requested invocations fails; the
cycle's result is that error and only two invocations were issued. -/
theorem tool_error_aborts_cycle_witness :
    failEnv.call_tool "divide" "boom" = Except.error "tool failed" ∧
    (processQuery failEnv [] "what is 1 / 0").2.1 = Except.error "tool failed" ∧
    ∃ evs, (processQuery failEnv [] "what is 1 / 0").2.2 =
        Event.listTools :: Event.completion (firstWindow [] "what is 1 / 0") "auto" :: evs ∧
      evs.length = 2 := by
  have h := tool_error_aborts_cycle failEnv [] "what is 1 / 0" failAM rfl 1
    { id := "call_2", name := "divide", arguments := "boom" } "boom" "tool failed"
    (by decide)
    (by intro j hj
        have hj0 : j = 0 := by omega
        subst hj0
        exact ⟨{ id := "call_1", name := "add", arguments := "argsA" }, "argsA",
          { content := "4" }, by decide, rfl, rfl⟩)
    rfl rfl
  obtain ⟨h1, evs, h2, h3, -, -⟩ := h
  exact ⟨rfl, h1, evs, h2, h3⟩

/-- Every result message the tool loop builds carries the `call_id` of
one of the requests it was given. -/
theorem runToolCalls_ids {α : Type} (env : Env α) (tcs : List ToolCall) :
    ∀ msgs evs, runToolCalls env tcs = (Except.ok msgs, evs) →
      ∀ m ∈ msgs, ∃ tc ∈ tcs, m.tool_call_id = some tc.id := by
  induction tcs with
  | nil =>
    intro msgs evs h m hm
    simp only [runToolCalls, Prod.mk.injEq, Except.ok.injEq] at h
    rw [← h.1] at hm
    simp at hm
  | cons tc rest ih =>
    intro msgs evs h m hm
    cases hp : env.parseJson tc.arguments with
    | error e => simp [runToolCalls, hp] at h
    | ok args =>
      cases hc : env.call_tool tc.name args with
      | error e => simp [runToolCalls, hp, hc] at h
      | ok r =>
        rcases hrest : runToolCalls env rest with ⟨res, evs0⟩
        cases res with
        | error e =>
          simp [runToolCalls, hp, hc, hrest, Except.map] at h
        | ok msgs0 =>
          simp only [runToolCalls, hp, hc, hrest, Except.map, Prod.mk.injEq,
            Except.ok.injEq] at h
          rw [← h.1] at hm
          rcases List.mem_cons.mp hm with hm | hm
          · exact ⟨tc, List.mem_cons_self tc rest, by rw [hm]; rfl⟩
          · obtain ⟨tcj, htcj, hid⟩ := ih msgs0 evs0 hrest m hm
            exact ⟨tcj, List.mem_cons_of_mem tc htcj, hid⟩

/-- C5: every `ToolInvocationResult` produced in a cycle carries the
call identifier of some tool-invocation request of that cycle's first
assistant message. -/
theorem results_match_request_ids {α : Type} (env : Env α) (history : List Msg) (query : String)
    (am : AssistantMessage)
    (_ham : env.complete1 (firstWindow history query) (mcpTools env.list_tools) = am)
    (msgs : List Msg) (evs : List (Event α))
    (hrun : runToolCalls env am.tool_calls = (Except.ok msgs, evs)) :
    ∀ m ∈ msgs, ∃ tc ∈ am.tool_calls, m.tool_call_id = some tc.id :=
  runToolCalls_ids env am.tool_calls msgs evs hrun

/-- C5 witness: on the two-call cycle both results reference the
requests' identifiers. -/
theorem results_match_request_ids_witness :
    runToolCalls toolEnv twoCallAM.tool_calls =
      (Except.ok [toolMsg "call_1" "4", toolMsg "call_2" "4"],
        [Event.invoke "add" "argsA", Event.invoke "multiply" "argsB"]) ∧
    ∀ m ∈ [toolMsg "call_1" "4", toolMsg "call_2" "4"],
      ∃ tc ∈ twoCallAM.tool_calls, m.tool_call_id = some tc.id := by
  have hrun : runToolCalls toolEnv twoCallAM.tool_calls =
      (Except.ok [toolMsg "call_1" "4", toolMsg "call_2" "4"],
        [Event.invoke "add" "argsA", Event.invoke "multiply" "argsB"]) := by rfl
  exact ⟨hrun, results_match_request_ids toolEnv [] "2 + 2" twoCallAM rfl _ _ hrun⟩

/-- C9: a cycle with tool invocations grows the stored transcript by
exactly three entries — the user message, the first assistant message
with its tool metadata dropped and absent content coerced to the empty
string, and the final assistant message — none of which is a tool-role
message or carries tool metadata; tool results never enter the stored
transcript. -/
theorem stored_transcript_shape {α : Type} (env : Env α) (history : List Msg) (query : String)
    (am : AssistantMessage)
    (ham : env.complete1 (firstWindow history query) (mcpTools env.list_tools) = am)
    (hne : am.tool_calls ≠ [])
    (msgs : List Msg) (evs : List (Event α))
    (hrun : runToolCalls env am.tool_calls = (Except.ok msgs, evs))
    (hh : ∀ m ∈ history, m.role ≠ Role.tool) :
    ∃ finalc,
      (processQuery env history query).1 =
        history ++ [userMsg query, storedAssistantMsg am.content, storedAssistantMsg finalc] ∧
      (∀ m ∈ [userMsg query, storedAssistantMsg am.content, storedAssistantMsg finalc],
        m.role ≠ Role.tool ∧ m.tool_calls = [] ∧ m.tool_call_id = none ∧
        ∃ s, m.content = some s) ∧
      (am.content = none → (storedAssistantMsg am.content).content = some "") ∧
      (∀ m ∈ (processQuery env history query).1, m.role ≠ Role.tool) := by
  refine ⟨env.complete2 (lastN 20 (firstWindow history query ++ [rawAssistantMsg am] ++ msgs))
    (mcpTools env.list_tools), ?_, ?_, ?_, ?_⟩
  · rw [processQuery_toolsOk env history query am ham hne msgs evs hrun]
    simp
  · intro m hm
    rcases List.mem_cons.mp hm with hm | hm
    · subst hm
      exact ⟨by simp [userMsg], rfl, rfl, query, rfl⟩
    rcases List.mem_cons.mp hm with hm | hm
    · subst hm
      exact ⟨by simp [storedAssistantMsg], rfl, rfl, am.content.getD "", rfl⟩
    rcases List.mem_cons.mp hm with hm | hm
    · subst hm
      exact ⟨by simp [storedAssistantMsg], rfl, rfl, _, rfl⟩
    · simp at hm
  · intro hc
    rw [hc]
    rfl
  · intro m hm
    rw [processQuery_toolsOk env history query am ham hne msgs evs hrun] at hm
    simp only [List.append_assoc, List.mem_append, List.mem_singleton] at hm
    rcases hm with hm | hm | hm | hm
    · exact hh m hm
    · subst hm
      simp [userMsg]
    · subst hm
      simp [storedAssistantMsg]
    · subst hm
      simp [storedAssistantMsg]

/-- C9 witness: the two-call cycle appends exactly the three stored
entries, with the absent assistant content coerced to the empty string. -/
theorem stored_transcript_shape_witness :
    twoCallAM.tool_calls ≠ [] ∧
    ∃ finalc,
      (processQuery toolEnv [] "2 + 2").1 =
        [userMsg "2 + 2", storedAssistantMsg twoCallAM.content, storedAssistantMsg finalc] ∧
      (twoCallAM.content = none →
        (storedAssistantMsg twoCallAM.content).content = some "") := by
  have h := stored_transcript_shape toolEnv [] "2 + 2" twoCallAM rfl (by decide)
    [toolMsg "call_1" "4", toolMsg "call_2" "4"]
    [Event.invoke "add" "argsA", Event.invoke "multiply" "argsB"]
    (by rfl) (by intro m hm; simp at hm)
  obtain ⟨finalc, h1, -, h3, -⟩ := h
  exact ⟨by decide, finalc, by simpa using h1, h3⟩

/-- C6: a line that is empty after stripping runs no cycle — no
completion request, no tool-catalog query, no tool invocation — leaves
the transcript unchanged, and the loop continues with the next line. -/
theorem blank_input_skipped {α : Type} (env : Env α) (history : List Msg)
    (line : String) (rest : List String) (h : pyStrip line = "") :
    loopStep line = StepAction.skip ∧
    runLoop env history (line :: rest) = runLoop env history rest := by
  have hs : loopStep line = StepAction.skip := by
    simp only [loopStep, h]
    decide
  exact ⟨hs, by simp only [runLoop, hs]⟩

/-- C6 witness: a whitespace-only line is skipped. -/
theorem blank_input_skipped_witness :
    pyStrip "  " = "" ∧ runLoop echoEnv [] ["  "] = runLoop echoEnv [] [] :=
  ⟨by decide, (blank_input_skipped echoEnv [] "  " [] (by decide)).2⟩

/-- C7: a line equal to "exit" or "quit" after trimming, case
insensitively, terminates the loop without issuing any completion
request, and the session resources are released before termination. -/
theorem exit_sentinel {α : Type} (env : Env α) (history : List Msg)
    (line : String) (rest : List String)
    (h : pyLower (pyStrip line) = "exit" ∨ pyLower (pyStrip line) = "quit") :
    loopStep line = StepAction.exit ∧
    runLoop env history (line :: rest) = (Outcome.exited, history, []) ∧
    (mainRun env (line :: rest)).events = [] ∧
    (mainRun env (line :: rest)).resources = [ResAction.acquire, ResAction.release] := by
  have hs : loopStep line = StepAction.exit := by
    simp only [loopStep]
    rw [if_pos h]
  refine ⟨hs, by simp only [runLoop, hs], ?_, rfl⟩
  simp only [mainRun, runLoop, hs]

/-- C7 witness: "Exit " (mixed case, trailing space) terminates the loop
with resources released and no completion request. -/
theorem exit_sentinel_witness :
    (pyLower (pyStrip "Exit ") = "exit" ∨ pyLower (pyStrip "Exit ") = "quit") ∧
    runLoop echoEnv [] ["Exit ", "ignored"] = (Outcome.exited, [], []) ∧
    (mainRun echoEnv ["Exit ", "ignored"]).events = [] :=
  ⟨by decide,
   (exit_sentinel echoEnv [] "Exit " ["ignored"] (by decide)).2.1,
   (exit_sentinel echoEnv [] "Exit " ["ignored"] (by decide)).2.2.1⟩

/-- C8: on every run, the session/transport is acquired exactly once at
startup and released exactly once at shutdown, whichever way the loop
ends — exit sentinel, end of input, or an error propagating out of a
cycle. -/
theorem cleanup_every_path {α : Type} (env : Env α) (lines : List String) :
    (mainRun env lines).resources = [ResAction.acquire, ResAction.release] ∧
    ((mainRun env lines).outcome = Outcome.exited ∨
      (mainRun env lines).outcome = Outcome.endOfInput ∨
      ∃ e, (mainRun env lines).outcome = Outcome.errored e) := by
  refine ⟨rfl, ?_⟩
  cases ho : (mainRun env lines).outcome with
  | exited => exact Or.inl rfl
  | endOfInput => exact Or.inr (Or.inl rfl)
  | errored e => exact Or.inr (Or.inr ⟨e, rfl⟩)

/-- C10: in the calculator server, `divide` errors exactly when the
denominator is zero and returns the exact quotient otherwise, while
`add`, `subtract` and `multiply` are total and return the sum,
difference and product. -/
theorem calculator_ops (a b : Int) :
    add a b = a + b ∧ subtract a b = a - b ∧ multiply a b = a * b ∧
    ((∃ e, divide a b = Except.error e) ↔ b = 0) ∧
    (b ≠ 0 → divide a b = Except.ok ((a : Rat) / (b : Rat))) := by
  refine ⟨rfl, rfl, rfl, ⟨?_, ?_⟩, ?_⟩
  · rintro ⟨e, he⟩
    by_contra hb
    simp [divide, hb] at he
  · intro hb
    exact ⟨"Division by zero is not allowed.", by simp [divide, hb]⟩
  · intro hb
    simp [divide, hb]

/-- C10 witness: 7 / 2 succeeds with the exact rational quotient, and
division by zero errors. -/
theorem calculator_ops_witness :
    (2 : Int) ≠ 0 ∧ divide 7 2 = Except.ok ((7 : Rat) / (2 : Rat)) ∧
    ((∃ e, divide 7 0 = Except.error e) ↔ (0 : Int) = 0) :=
  ⟨by decide, (calculator_ops 7 2).2.2.2.2 (by decide), (calculator_ops 7 0).2.2.2.1⟩

end MCPBasics
